import Mathlib

/-!
Verification of the wire normalizer and embedding pipeline of this repository.

The normalizer is embedded from
`src/packages/openai-compatible/src/convert-to-openai-compatible-chat-messages.ts`:
JavaScript objects are modelled as insertion-ordered association lists
(`Bag`), object spread as `jsMerge` (later keys overwrite in place, new keys
append), and the in-place metadata hoisting of `findAndHoistMetadata` as a
function from messages to messages so that the mutation of the caller's input
is observable.  The hoisting pass is modelled on the typed locations of
`providerMetadata` (messages and their content parts); opaque JSON payloads
(`args`, `result`) are treated as atomic data, mirroring the declared
interface types.

The embedding pipeline (`embed`) is embedded from the sources as well; the
retry helper it consumes is not among the sources and is modelled from the
spec (see `retryGo`).
-/

namespace AIKit

/-- JSON values, insertion ordered, mirroring the JavaScript value model used
by the sources (`JSONValue`).  Numbers are restricted to integers, which is
all the claims exercise. -/
inductive Json where
  | null
  | bool (b : Bool)
  | num (n : Int)
  | str (s : String)
  | arr (elems : List Json)
  | obj (fields : List (String × Json))

/-- A JavaScript object as an insertion-ordered association list. -/
abbrev Bag := List (String × Json)

/-- A `providerMetadata` record: provider namespace to key/value bag. -/
abbrev MetaMap := List (String × Bag)

/-- Whether the object has an own property `k`. -/
def bagHasKey (bag : Bag) (k : String) : Bool :=
  bag.any (fun p => p.1 == k)

/-- JavaScript property assignment: overwriting an existing key keeps its
position, a new key is appended. -/
def setKey (bag : Bag) (k : String) (v : Json) : Bag :=
  if bagHasKey bag k then
    bag.map (fun p => if p.1 == k then (k, v) else p)
  else
    bag ++ [(k, v)]

/-- JavaScript object spread `\x7b...a, ...b\x7d`: assign every property of `b` into
`a` in order. -/
def jsMerge (a b : Bag) : Bag :=
  b.foldl (fun acc kv => setKey acc kv.1 kv.2) a

/-- Property lookup on an object. -/
def lookupBag (bag : Bag) (k : String) : Option Json :=
  (bag.find? (fun p => p.1 == k)).map (fun p => p.2)

/-- Namespace lookup on a `providerMetadata` record. -/
def lookupMeta (pm : Option MetaMap) (ns : String) : Option Bag :=
  match pm with
  | none => none
  | some m => (m.find? (fun p => p.1 == ns)).map (fun p => p.2)

/- ### JSON serialization (`JSON.stringify`) -/

/-- One hexadecimal digit. -/
def hexDigit (n : Nat) : String :=
  ["0", "1", "2", "3", "4", "5", "6", "7", "8", "9", "a", "b", "c", "d", "e", "f"].getD n "0"

/-- Escaping of one character inside a JSON string literal, as
`JSON.stringify` performs it. -/
def escapeJsonChar (c : Char) : String :=
  if c = '"' then "\\\""
  else if c = '\\' then "\\\\"
  else if c = '\n' then "\\n"
  else if c = '\r' then "\\r"
  else if c = '\t' then "\\t"
  else if c.toNat = 8 then "\\b"
  else if c.toNat = 12 then "\\f"
  else if c.toNat < 32 then "\\u00" ++ hexDigit (c.toNat / 16) ++ hexDigit (c.toNat % 16)
  else String.singleton c

/-- A quoted JSON string literal. -/
def jsonQuote (s : String) : String :=
  "\"" ++ String.join (s.toList.map escapeJsonChar) ++ "\""

mutual

/-- `JSON.stringify` on the JSON value model. -/
def Json.stringify : Json → String
  | .null => "null"
  | .bool b => if b then "true" else "false"
  | .num n => toString n
  | .str s => jsonQuote s
  | .arr xs => "[" ++ stringifyElems xs ++ "]"
  | .obj fs => "\x7b" ++ stringifyFields fs ++ "\x7d"

/-- Comma-separated serialization of array elements. -/
def stringifyElems : List Json → String
  | [] => ""
  | [x] => Json.stringify x
  | x :: y :: xs => Json.stringify x ++ "," ++ stringifyElems (y :: xs)

/-- Comma-separated serialization of object fields. -/
def stringifyFields : List (String × Json) → String
  | [] => ""
  | [(k, v)] => jsonQuote k ++ ":" ++ Json.stringify v
  | (k, v) :: f :: fs => jsonQuote k ++ ":" ++ Json.stringify v ++ "," ++ stringifyFields (f :: fs)

end

/- ### Base64 (`convertUint8ArrayToBase64`) -/

/-- The base64 alphabet. -/
def base64Char (n : Nat) : Char :=
  "ABCDEFGHIJKLMNOPQRSTUVWXYZabcdefghijklmnopqrstuvwxyz0123456789+/".toList.getD n 'A'

/-- Base64 encoding of a byte sequence, as `convertUint8ArrayToBase64` from
the provider utilities produces it. -/
def convertUint8ArrayToBase64 : List Nat → String
  | [] => ""
  | [a] =>
    String.mk [base64Char (a / 4 % 64), base64Char (a % 4 * 16), '=', '=']
  | [a, b] =>
    String.mk [base64Char (a / 4 % 64), base64Char (a % 4 * 16 + b / 16 % 16),
      base64Char (b % 16 * 4), '=']
  | a :: b :: c :: rest =>
    String.mk [base64Char (a / 4 % 64), base64Char (a % 4 * 16 + b / 16 % 16),
      base64Char (b % 16 * 4 + c / 64 % 4), base64Char (c % 64)]
      ++ convertUint8ArrayToBase64 rest

/- ### The unified conversation model (`LanguageModelV1Prompt`)

Each message and part carries its typed fields, its `providerMetadata`
record, and an `extra` bag holding any additional own properties; a
well-typed caller input has `extra = []`, and the in-place hoisting pass
populates it. -/

/-- An image supplied by reference (a URL) or as raw bytes. -/
inductive ImageVal where
  | url (href : String)
  | bytes (data : List Nat)

/-- A content part of a user message. -/
inductive UserPart where
  | text (text : String) (providerMetadata : Option MetaMap) (extra : Bag)
  | image (image : ImageVal) (mimeType : Option String) (providerMetadata : Option MetaMap)
      (extra : Bag)
  | file (data : String) (mimeType : String) (providerMetadata : Option MetaMap) (extra : Bag)

/-- A content part of an assistant message. -/
inductive AssistantPart where
  | text (text : String) (providerMetadata : Option MetaMap) (extra : Bag)
  | toolCall (toolCallId : String) (toolName : String) (args : Json)
      (providerMetadata : Option MetaMap) (extra : Bag)

/-- A tool-result part of a tool message. -/
structure ToolResultPart where
  toolCallId : String
  toolName : String
  result : Json
  providerMetadata : Option MetaMap
  extra : Bag

/-- A message of the unified conversation. -/
inductive Message where
  | system (content : String) (providerMetadata : Option MetaMap) (extra : Bag)
  | user (content : List UserPart) (providerMetadata : Option MetaMap) (extra : Bag)
  | assistant (content : List AssistantPart) (providerMetadata : Option MetaMap) (extra : Bag)
  | tool (content : List ToolResultPart) (providerMetadata : Option MetaMap) (extra : Bag)

/- ### Metadata hoisting (`findAndHoistMetadata`)

The source walks each message object and, wherever a
`providerMetadata.openaiCompatible` bag is present, `Object.assign`s that bag
into the owning object, deletes the namespace, and deletes `providerMetadata`
altogether when no other namespace remains — mutating the caller's input. -/

/-- One hoisting step on an object's `providerMetadata` and own properties. -/
def hoistMeta (pm : Option MetaMap) (extra : Bag) : Option MetaMap × Bag :=
  match pm with
  | none => (none, extra)
  | some m =>
    match m.find? (fun p => p.1 == "openaiCompatible") with
    | none => (some m, extra)
    | some entry =>
      let residual := m.filter (fun p => p.1 ≠ "openaiCompatible")
      ((if residual.isEmpty then none else some residual), jsMerge extra entry.2)

/-- Hoisting applied to a user part. -/
def hoistUserPart : UserPart → UserPart
  | .text t pm ex =>
    let r := hoistMeta pm ex
    .text t r.1 r.2
  | .image img mt pm ex =>
    let r := hoistMeta pm ex
    .image img mt r.1 r.2
  | .file d mt pm ex =>
    let r := hoistMeta pm ex
    .file d mt r.1 r.2

/-- Hoisting applied to an assistant part. -/
def hoistAssistantPart : AssistantPart → AssistantPart
  | .text t pm ex =>
    let r := hoistMeta pm ex
    .text t r.1 r.2
  | .toolCall i n a pm ex =>
    let r := hoistMeta pm ex
    .toolCall i n a r.1 r.2

/-- Hoisting applied to a tool-result part. -/
def hoistToolResultPart (p : ToolResultPart) : ToolResultPart :=
  let r := hoistMeta p.providerMetadata p.extra
  { p with providerMetadata := r.1, extra := r.2 }

/-- `findAndHoistMetadata` on one message: hoist at the message level, then
recurse into the content parts. -/
def hoistMessage : Message → Message
  | .system c pm ex =>
    let r := hoistMeta pm ex
    .system c r.1 r.2
  | .user ps pm ex =>
    let r := hoistMeta pm ex
    .user (ps.map hoistUserPart) r.1 r.2
  | .assistant ps pm ex =>
    let r := hoistMeta pm ex
    .assistant (ps.map hoistAssistantPart) r.1 r.2
  | .tool ps pm ex =>
    let r := hoistMeta pm ex
    .tool (ps.map hoistToolResultPart) r.1 r.2

/- ### The converter (`convertToOpenAICompatibleChatMessages`) -/

/-- The `providerMetadata` record rendered back as a JSON object field
value. -/
def metaJson (m : MetaMap) : Json :=
  .obj (m.map (fun p => (p.1, Json.obj p.2)))

/-- The residual own properties of an object after destructuring its typed
fields away: the residual `providerMetadata` (if any) followed by the hoisted
extra properties, in the insertion order the mutation produced. -/
def restBag (pm : Option MetaMap) (extra : Bag) : Bag :=
  (match pm with
   | none => []
   | some m => [("providerMetadata", metaJson m)]) ++ extra

/-- The failure raised by the converter
(`UnsupportedFunctionalityError`). -/
inductive ConvErr where
  | unsupportedFunctionality (functionality : String)
deriving DecidableEq

/-- The `url` string of a wire image part. -/
def imageUrlString : ImageVal → Option String → String
  | .url u, _ => u
  | .bytes ds, mime =>
    "data:" ++ mime.getD "image/jpeg" ++ ";base64," ++ convertUint8ArrayToBase64 ds

/-- Conversion of one user content part on the multi-part path of the
source. -/
def convertUserPart : UserPart → Except ConvErr Json
  | .text t pm ex =>
    .ok (.obj (jsMerge [("type", .str "text"), ("text", .str t)] (restBag pm ex)))
  | .image img mt pm ex =>
    .ok (.obj (jsMerge
      [("type", .str "image_url"), ("image_url", .obj [("url", .str (imageUrlString img mt))])]
      (restBag pm ex)))
  | .file _ _ _ _ =>
    .error (.unsupportedFunctionality "File content parts in user messages")

/-- The concatenation of the assistant message's text parts, accumulated
exactly as the source's `text += part.text` loop does. -/
def assistantText (parts : List AssistantPart) : String :=
  parts.foldl
    (fun acc p =>
      match p with
      | .text t _ _ => acc ++ t
      | .toolCall _ _ _ _ _ => acc)
    ""

/-- The wire `tool_calls` entries collected from the assistant message's
tool-call parts. -/
def assistantToolCalls (parts : List AssistantPart) : List Json :=
  parts.filterMap
    (fun p =>
      match p with
      | .text _ _ _ => none
      | .toolCall i n a pm ex =>
        some (.obj (jsMerge
          [("id", .str i), ("type", .str "function"),
           ("function", .obj [("name", .str n), ("arguments", .str (Json.stringify a))])]
          (restBag pm ex))))

/-- Conversion of one (already hoisted) message into its wire messages,
following the role dispatch of the source. -/
def convertHoistedMessage : Message → Except ConvErr (List Bag)
  | .system c pm ex =>
    .ok [jsMerge [("role", .str "system"), ("content", .str c)] (restBag pm ex)]
  | .user content pm ex =>
    match content with
    | [.text t ppm pex] =>
      .ok [jsMerge (jsMerge [("role", .str "user"), ("content", .str t)] (restBag pm ex))
        (restBag ppm pex)]
    | _ => do
      let parts ← content.mapM convertUserPart
      .ok [jsMerge [("role", .str "user"), ("content", .arr parts)] (restBag pm ex)]
  | .assistant content pm ex =>
    let tcs := assistantToolCalls content
    .ok [jsMerge
      ([("role", .str "assistant"), ("content", .str (assistantText content))]
        ++ (if tcs.isEmpty then [] else [("tool_calls", .arr tcs)]))
      (restBag pm ex)]
  | .tool content pm ex =>
    .ok (content.map (fun tr =>
      jsMerge
        (jsMerge
          [("role", .str "tool"), ("tool_call_id", .str tr.toolCallId),
           ("content", .str (Json.stringify tr.result))]
          (restBag tr.providerMetadata tr.extra))
        (restBag pm ex)))

/-- Conversion of a hoisted prompt, concatenating the wire messages of each
message in order; the first failure aborts the whole conversion, as the
thrown exception does in the source. -/
def convertHoistedAll : List Message → Except ConvErr (List Bag)
  | [] => .ok []
  | m :: ms => do
    let a ← convertHoistedMessage m
    let b ← convertHoistedAll ms
    .ok (a ++ b)

/-- `convertToOpenAICompatibleChatMessages`: the source first runs the
mutating hoisting pass over every message of the caller's prompt and then
converts the mutated prompt.  The first component is the state the caller's
input has been left in; the second is the produced wire messages (or the
raised error). -/
def convertToOpenAICompatibleChatMessages (prompt : List Message) :
    List Message × Except ConvErr (List Bag) :=
  let hoisted := prompt.map hoistMessage
  (hoisted, convertHoistedAll hoisted)

/- ### Observation helpers for concrete outputs -/

/-- For each emitted wire message, the string value of property `k` (if it is
a string); used to observe overlay-collision outcomes on concrete inputs. -/
def projLookups (r : Except ConvErr (List Bag)) (k : String) : List (Option String) :=
  match r with
  | .error _ => []
  | .ok ws => ws.map (fun w =>
      match lookupBag w k with
      | some (.str s) => some s
      | _ => none)

/-- The property names of each emitted wire message, in order. -/
def outKeys (r : Except ConvErr (List Bag)) : List (List String) :=
  match r with
  | .error _ => []
  | .ok ws => ws.map (fun w => w.map (fun p => p.1))

/- ### General lemmas about the object model -/

theorem bagHasKey_nil (k : String) : bagHasKey [] k = false := rfl

theorem bagHasKey_append (a b : Bag) (k : String) :
    bagHasKey (a ++ b) k = (bagHasKey a k || bagHasKey b k) := by
  simp [bagHasKey, List.any_append]

/-- Spreading an object whose keys are fresh for `a` is plain
concatenation. -/
theorem jsMerge_eq_append (a b : Bag) (hb : (b.map Prod.fst).Nodup)
    (hdisj : ∀ kv ∈ b, bagHasKey a kv.1 = false) :
    jsMerge a b = a ++ b := by
  induction b generalizing a with
  | nil => simp [jsMerge]
  | cons kv rest ih =>
    have hk : bagHasKey a kv.1 = false := hdisj kv (by simp)
    have hset : setKey a kv.1 kv.2 = a ++ [kv] := by
      simp [setKey, hk]
    have hrest : ∀ p ∈ rest, bagHasKey (a ++ [kv]) p.1 = false := by
      intro p hp
      rw [bagHasKey_append]
      have h1 : bagHasKey a p.1 = false := hdisj p (by simp [hp])
      have h2 : bagHasKey [kv] p.1 = false := by
        simp only [List.map_cons, List.nodup_cons] at hb
        have : p.1 ≠ kv.1 := by
          intro he
          exact hb.1 (he ▸ List.mem_map_of_mem Prod.fst hp)
        simp [bagHasKey, this.symm]
      simp [h1, h2]
    have hnd : (rest.map Prod.fst).Nodup := by
      simp only [List.map_cons, List.nodup_cons] at hb
      exact hb.2
    calc jsMerge a (kv :: rest)
        = jsMerge (setKey a kv.1 kv.2) rest := by
          simp [jsMerge]
      _ = jsMerge (a ++ [kv]) rest := by rw [hset]
      _ = (a ++ [kv]) ++ rest := ih (a ++ [kv]) hnd hrest
      _ = a ++ (kv :: rest) := by simp

/-- Spreading a duplicate-free object into the empty object reproduces it. -/
theorem jsMerge_nil (b : Bag) (hb : (b.map Prod.fst).Nodup) : jsMerge [] b = b := by
  have := jsMerge_eq_append [] b hb (fun kv _ => rfl)
  simpa using this

theorem restBag_none (ex : Bag) : restBag none ex = ex := rfl

/-- Hoisting a metadata record that carries only the active namespace moves
exactly its bag into the object's own properties. -/
theorem hoistMeta_active_only (ov ex : Bag) :
    hoistMeta (some [("openaiCompatible", ov)]) ex = (none, jsMerge ex ov) := by
  simp [hoistMeta, List.find?, List.filter]

/-- Conversion distributes over concatenation of conversations when both
halves succeed. -/
theorem convertHoistedAll_append (xs ys : List Message) (as bs : List Bag)
    (hx : convertHoistedAll xs = .ok as) (hy : convertHoistedAll ys = .ok bs) :
    convertHoistedAll (xs ++ ys) = .ok (as ++ bs) := by
  induction xs generalizing as with
  | nil =>
    simp [convertHoistedAll] at hx
    subst hx
    simpa using hy
  | cons m ms ih =>
    cases hm : convertHoistedMessage m with
    | error e =>
      rw [convertHoistedAll, hm] at hx
      exact absurd hx (by simp [Bind.bind, Except.bind])
    | ok a =>
      cases hms : convertHoistedAll ms with
      | error e =>
        rw [convertHoistedAll, hm] at hx
        simp only [Bind.bind, Except.bind] at hx
        rw [hms] at hx
        exact absurd hx (by simp)
      | ok as' =>
        rw [convertHoistedAll, hm] at hx
        simp only [Bind.bind, Except.bind] at hx
        rw [hms] at hx
        simp only [Except.ok.injEq] at hx
        subst hx
        have h3 := ih as' hms
        show convertHoistedAll (m :: (ms ++ ys)) = _
        rw [convertHoistedAll, hm]
        simp only [Bind.bind, Except.bind]
        rw [h3]
        simp [List.append_assoc]

/- ### C1 — mutation of the caller's input -/

/-- C1: the claim states that `convertToOpenAICompatibleChatMessages` leaves
the caller's input conversation unchanged.  The code's hoisting pass mutates
it: on a system message carrying an `openaiCompatible` overlay, the overlay's
keys are assigned into the message object itself and its `providerMetadata`
record is deleted, so after the call the input message differs structurally
from what the caller supplied. -/
theorem hoisting_mutates_caller_input :
    (convertToOpenAICompatibleChatMessages
      [.system "hello"
        (some [("openaiCompatible", [("cacheControl", Json.str "ephemeral")])]) []]).1
      = [.system "hello" none [("cacheControl", Json.str "ephemeral")]]
    ∧ [Message.system "hello" none [("cacheControl", Json.str "ephemeral")]]
      ≠ [.system "hello"
          (some [("openaiCompatible", [("cacheControl", Json.str "ephemeral")])]) []] := by
  refine ⟨rfl, ?_⟩
  intro h
  simp at h

/- ### C2 — tool message fan-out -/

/-- A tool-result part built from `(toolCallId, toolName, result, overlay)`
with the overlay under the active `openaiCompatible` namespace. -/
def toolResultOf (p : String × String × Json × Bag) : ToolResultPart :=
  ⟨p.1, p.2.1, p.2.2.1, some [("openaiCompatible", p.2.2.2)], []⟩

/-- Per-message computation behind the tool fan-out: each tool-result part
becomes one wire message; the part overlay is spread first and the message
overlay last, so the message overlay wins on key collision. -/
theorem tool_message_eq (ps : List (String × String × Json × Bag)) (msgOv : Bag)
    (hpv : ∀ p ∈ ps, ((p.2.2.2).map Prod.fst).Nodup)
    (hm : (msgOv.map Prod.fst).Nodup) :
    convertHoistedMessage (hoistMessage
      (.tool (ps.map toolResultOf) (some [("openaiCompatible", msgOv)]) []))
      = .ok (ps.map (fun p =>
          jsMerge
            (jsMerge
              [("role", Json.str "tool"), ("tool_call_id", Json.str p.1),
               ("content", Json.str (Json.stringify p.2.2.1))]
              p.2.2.2)
            msgOv)) := by
  have hparts : (ps.map toolResultOf).map hoistToolResultPart
      = ps.map (fun p => ToolResultPart.mk p.1 p.2.1 p.2.2.1 none p.2.2.2) := by
    rw [List.map_map]
    apply List.map_congr_left
    intro p hp
    simp [toolResultOf, hoistToolResultPart, hoistMeta_active_only,
      jsMerge_nil _ (hpv p hp)]
  simp only [hoistMessage, hoistMeta_active_only, convertHoistedMessage]
  rw [jsMerge_nil msgOv hm, hparts, List.map_map]
  refine congrArg Except.ok (List.map_congr_left ?_)
  intro p hp
  simp [restBag_none]

/-- C2 counterexample: a concrete tool message whose single tool-result part
carries overlay `k ↦ "part"` while the message carries overlay `k ↦ "msg"`.
The claim predicts the part overlay wins the collision; the emitted wire
message actually carries the message overlay's value `"msg"`, because the
source spreads `...toolResponseRest` before `...rest`. -/
theorem tool_overlay_collision_counterexample :
    projLookups
      (convertToOpenAICompatibleChatMessages
        [.tool
          [⟨"id1", "f", .str "r", some [("openaiCompatible", [("k", Json.str "part")])], []⟩]
          (some [("openaiCompatible", [("k", Json.str "msg")])]) []]).2 "k"
      = [some "msg"] ∧ (some "msg" : Option String) ≠ some "part" :=
  ⟨by decide, by decide⟩

/-- C2 (amended): for every tool message with N tool-result parts,
normalization produces exactly N independent wire messages in part order,
each of the form `role/tool_call_id/content` merged with the part overlay and
then the message overlay — so on a key collision the MESSAGE overlay's value
wins. -/
theorem tool_fanout_message_overlay_wins (pre post : List Message)
    (ps : List (String × String × Json × Bag)) (msgOv : Bag) (as bs : List Bag)
    (h1 : (convertToOpenAICompatibleChatMessages pre).2 = .ok as)
    (h2 : (convertToOpenAICompatibleChatMessages post).2 = .ok bs)
    (hpv : ∀ p ∈ ps, ((p.2.2.2).map Prod.fst).Nodup)
    (hm : (msgOv.map Prod.fst).Nodup) :
    (convertToOpenAICompatibleChatMessages
      (pre ++ .tool (ps.map toolResultOf) (some [("openaiCompatible", msgOv)]) [] :: post)).2
      = .ok (as
          ++ ps.map (fun p =>
              jsMerge
                (jsMerge
                  [("role", Json.str "tool"), ("tool_call_id", Json.str p.1),
                   ("content", Json.str (Json.stringify p.2.2.1))]
                  p.2.2.2)
                msgOv)
          ++ bs) := by
  have hmid := tool_message_eq ps msgOv hpv hm
  show convertHoistedAll ((pre ++ _ :: post).map hoistMessage) = _
  rw [List.map_append, List.map_cons]
  have htail : convertHoistedAll
      (hoistMessage (.tool (ps.map toolResultOf) (some [("openaiCompatible", msgOv)]) [])
        :: post.map hoistMessage)
      = .ok ((ps.map (fun p =>
          jsMerge
            (jsMerge
              [("role", Json.str "tool"), ("tool_call_id", Json.str p.1),
               ("content", Json.str (Json.stringify p.2.2.1))]
              p.2.2.2)
            msgOv)) ++ bs) := by
    have h2x : convertHoistedAll (post.map hoistMessage) = .ok bs := h2
    rw [convertHoistedAll, hmid]
    simp only [Bind.bind, Except.bind]
    rw [h2x]
  have := convertHoistedAll_append (pre.map hoistMessage) _ as _ h1 htail
  rw [this]
  simp [List.append_assoc]

/-- Witness for C2 (amended): a concrete two-part tool message fans out into
two wire messages in part order, each carrying the message overlay's value on
the colliding key. -/
theorem tool_fanout_witness :
    (convertToOpenAICompatibleChatMessages
      [.tool
        [⟨"id1", "f", .str "r1", some [("openaiCompatible", [("k", Json.str "p1")])], []⟩,
         ⟨"id2", "g", .str "r2", some [("openaiCompatible", [("k", Json.str "p2")])], []⟩]
        (some [("openaiCompatible", [("k", Json.str "m")])]) []]).2
      = .ok
          ([("id1", "f", Json.str "r1", [("k", Json.str "p1")]),
            ("id2", "g", Json.str "r2", [("k", Json.str "p2")])].map (fun p =>
            jsMerge
              (jsMerge
                [("role", Json.str "tool"), ("tool_call_id", Json.str p.1),
                 ("content", Json.str (Json.stringify p.2.2.1))]
                p.2.2.2)
              [("k", Json.str "m")])) := by
  have := tool_fanout_message_overlay_wins [] []
    [("id1", "f", Json.str "r1", [("k", Json.str "p1")]),
     ("id2", "g", Json.str "r2", [("k", Json.str "p2")])]
    [("k", Json.str "m")] [] [] rfl rfl (by decide) (by decide)
  simpa using this

/- ### C3 — single-text user message collapse -/

/-- Per-message computation behind the collapsed user form: the part overlay
is spread after the message overlay, so the part overlay wins on key
collision. -/
theorem user_single_text_message_eq (t : String) (partOv msgOv : Bag)
    (hp : (partOv.map Prod.fst).Nodup) (hm : (msgOv.map Prod.fst).Nodup) :
    convertHoistedMessage (hoistMessage
      (.user [.text t (some [("openaiCompatible", partOv)]) []]
        (some [("openaiCompatible", msgOv)]) []))
      = .ok [jsMerge
          (jsMerge [("role", Json.str "user"), ("content", Json.str t)] msgOv)
          partOv] := by
  simp only [hoistMessage, hoistMeta_active_only, List.map_cons, List.map_nil,
    hoistUserPart, convertHoistedMessage]
  rw [jsMerge_nil msgOv hm, jsMerge_nil partOv hp]
  rfl

/-- C3: for every conversation containing a user message whose content is
exactly one text part, normalization emits for that message the collapsed
form `role/content` merged with the message overlay and then the part
overlay; on any key present in both overlays the part overlay's value
wins. -/
theorem user_single_text_collapsed (pre post : List Message) (t : String)
    (partOv msgOv : Bag) (as bs : List Bag)
    (h1 : (convertToOpenAICompatibleChatMessages pre).2 = .ok as)
    (h2 : (convertToOpenAICompatibleChatMessages post).2 = .ok bs)
    (hp : (partOv.map Prod.fst).Nodup) (hm : (msgOv.map Prod.fst).Nodup) :
    (convertToOpenAICompatibleChatMessages
      (pre ++ .user [.text t (some [("openaiCompatible", partOv)]) []]
        (some [("openaiCompatible", msgOv)]) [] :: post)).2
      = .ok (as
          ++ jsMerge (jsMerge [("role", Json.str "user"), ("content", Json.str t)] msgOv)
              partOv
          :: bs) := by
  have hmid := user_single_text_message_eq t partOv msgOv hp hm
  show convertHoistedAll ((pre ++ _ :: post).map hoistMessage) = _
  rw [List.map_append, List.map_cons]
  have htail : convertHoistedAll
      (hoistMessage (.user [.text t (some [("openaiCompatible", partOv)]) []]
          (some [("openaiCompatible", msgOv)]) [])
        :: post.map hoistMessage)
      = .ok (jsMerge (jsMerge [("role", Json.str "user"), ("content", Json.str t)] msgOv)
          partOv :: bs) := by
    have h2x : convertHoistedAll (post.map hoistMessage) = .ok bs := h2
    rw [convertHoistedAll, hmid]
    simp only [Bind.bind, Except.bind]
    rw [h2x]
    rfl
  have := convertHoistedAll_append (pre.map hoistMessage) _ as _ h1 htail
  rw [this]

/-- Witness for C3: the concrete single-text user message of the spec's
example, with colliding overlays; the collapsed wire message carries the part
overlay's value on the colliding key. -/
theorem user_single_text_collapsed_witness :
    (convertToOpenAICompatibleChatMessages
      [.user [.text "hi" (some [("openaiCompatible", [("k", Json.str "part")])]) []]
        (some [("openaiCompatible", [("k", Json.str "msg")])]) []]).2
      = .ok [jsMerge
          (jsMerge [("role", Json.str "user"), ("content", Json.str "hi")]
            [("k", Json.str "msg")])
          [("k", Json.str "part")]]
    ∧ projLookups
        (convertToOpenAICompatibleChatMessages
          [.user [.text "hi" (some [("openaiCompatible", [("k", Json.str "part")])]) []]
            (some [("openaiCompatible", [("k", Json.str "msg")])]) []]).2 "k"
        = [some "part"] := by
  refine ⟨?_, by decide⟩
  have := user_single_text_collapsed [] [] "hi" [("k", Json.str "part")]
    [("k", Json.str "msg")] [] [] rfl rfl (by decide) (by decide)
  simpa using this

/- ### C4 — assistant messages -/

/-- Key-presence through property assignment. -/
theorem bagHasKey_map_replace (a : Bag) (q : String) (v : Json) (k : String) :
    bagHasKey (a.map (fun p => if p.1 == q then (q, v) else p)) k = bagHasKey a k := by
  induction a with
  | nil => rfl
  | cons p ps ih =>
    simp only [List.map_cons, bagHasKey, List.any_cons] at ih ⊢
    rw [ih]
    by_cases hp : p.1 == q
    · rw [if_pos hp]
      have hk : p.1 = q := eq_of_beq hp
      rw [hk]
    · rw [if_neg hp]

/-- Key-presence through `setKey`. -/
theorem bagHasKey_setKey (a : Bag) (q : String) (v : Json) (k : String) :
    bagHasKey (setKey a q v) k = (bagHasKey a k || (q == k)) := by
  unfold setKey
  by_cases h : bagHasKey a q
  · simp only [h, if_true, bagHasKey_map_replace]
    by_cases hqk : q == k
    · have hq : q = k := eq_of_beq hqk
      subst hq
      simp [h]
    · simp [hqk]
  · simp only [h]
    rw [if_neg (by simp [h]), bagHasKey_append]
    simp [bagHasKey]

/-- Key-presence through object spread. -/
theorem bagHasKey_jsMerge (a b : Bag) (k : String) :
    bagHasKey (jsMerge a b) k = (bagHasKey a k || bagHasKey b k) := by
  induction b generalizing a with
  | nil => simp [jsMerge, bagHasKey]
  | cons kv rest ih =>
    have hstep : jsMerge a (kv :: rest) = jsMerge (setKey a kv.1 kv.2) rest := rfl
    rw [hstep, ih, bagHasKey_setKey]
    simp [bagHasKey, Bool.or_assoc]

/-- A key not among an object's property names is absent. -/
theorem bagHasKey_eq_false_of_not_mem (b : Bag) (k : String) (h : k ∉ b.map Prod.fst) :
    bagHasKey b k = false := by
  simp only [bagHasKey, List.any_eq_false]
  intro p hp
  simp only [beq_iff_eq]
  intro he
  exact h (he ▸ List.mem_map_of_mem Prod.fst hp)

/-- Input data for one assistant content part: a text part or a tool-call
part, each with its `openaiCompatible` overlay. -/
inductive APartSpec where
  | text (t : String) (ov : Bag)
  | call (callId : String) (name : String) (args : Json) (ov : Bag)

/-- The overlay of an assistant part datum. -/
def APartSpec.overlay : APartSpec → Bag
  | .text _ ov => ov
  | .call _ _ _ ov => ov

/-- Whether the datum is a tool-call part. -/
def APartSpec.isToolCall : APartSpec → Bool
  | .text _ _ => false
  | .call _ _ _ _ => true

/-- The assistant part a caller supplies for the datum. -/
def toAssistantPart : APartSpec → AssistantPart
  | .text t ov => .text t (some [("openaiCompatible", ov)]) []
  | .call i n a ov => .toolCall i n a (some [("openaiCompatible", ov)]) []

/-- The assistant part after the hoisting pass (overlay moved into the
part's own properties). -/
def specHoisted : APartSpec → AssistantPart
  | .text t ov => .text t none ov
  | .call i n a ov => .toolCall i n a none ov

/-- The text concatenation of the parts, recursively. -/
def specConcatText : List APartSpec → String
  | [] => ""
  | .text t _ :: ps => t ++ specConcatText ps
  | .call _ _ _ _ :: ps => specConcatText ps

/-- The wire `tool_calls` entries of the parts, recursively. -/
def specToolCalls : List APartSpec → List Json
  | [] => []
  | .text _ _ :: ps => specToolCalls ps
  | .call i n a ov :: ps =>
    .obj (jsMerge
      [("id", .str i), ("type", .str "function"),
       ("function", .obj [("name", .str n), ("arguments", .str (Json.stringify a))])]
      ov) :: specToolCalls ps

/-- The recursive text concatenation over assistant parts. -/
def specConcatTextParts : List AssistantPart → String
  | [] => ""
  | .text t _ _ :: ps => t ++ specConcatTextParts ps
  | .toolCall _ _ _ _ _ :: ps => specConcatTextParts ps

/-- The `text +=` accumulation equals the recursive concatenation. -/
theorem assistantText_go (l : List AssistantPart) (acc : String) :
    l.foldl
      (fun acc p =>
        match p with
        | .text t _ _ => acc ++ t
        | .toolCall _ _ _ _ _ => acc)
      acc
      = acc ++ specConcatTextParts l := by
  induction l generalizing acc with
  | nil => simp [specConcatTextParts]
  | cons p ps ih =>
    cases p with
    | text t pm ex => simp [specConcatTextParts, ih, String.append_assoc]
    | toolCall i n a pm ex => simp [specConcatTextParts, ih]

/-- The wire entries of hoisted parts. -/
theorem assistantToolCalls_specHoisted (ps : List APartSpec) :
    assistantToolCalls (ps.map specHoisted) = specToolCalls ps := by
  induction ps with
  | nil => rfl
  | cons p rest ih =>
    cases p with
    | text t ov =>
      simp only [List.map_cons, specHoisted, assistantToolCalls, List.filterMap_cons] at ih ⊢
      simpa [specToolCalls] using ih
    | call i n a ov =>
      simp only [List.map_cons, specHoisted, assistantToolCalls, List.filterMap_cons] at ih ⊢
      simp [specToolCalls, restBag_none, ih]

/-- The recursive concatenation of hoisted parts. -/
theorem specConcatTextParts_map (ps : List APartSpec) :
    specConcatTextParts (ps.map specHoisted) = specConcatText ps := by
  induction ps with
  | nil => rfl
  | cons p rest ih =>
    cases p <;> simp [specHoisted, specConcatTextParts, specConcatText, ih]

/-- The text of hoisted parts. -/
theorem assistantText_specHoisted (ps : List APartSpec) :
    assistantText (ps.map specHoisted) = specConcatText ps := by
  have h := assistantText_go (ps.map specHoisted) ""
  rw [assistantText, h, specConcatTextParts_map]
  simp

/-- Some tool-call entry exists exactly when some tool-call part exists. -/
theorem specToolCalls_ne_nil_iff (ps : List APartSpec) :
    specToolCalls ps ≠ [] ↔ ∃ p ∈ ps, p.isToolCall = true := by
  induction ps with
  | nil => simp [specToolCalls]
  | cons p rest ih =>
    cases p with
    | text t ov => simp [specToolCalls, APartSpec.isToolCall, ih]
    | call i n a ov => simp [specToolCalls, APartSpec.isToolCall]

/-- The wire message the assistant case emits. -/
def c4Wire (ps : List APartSpec) (msgOv : Bag) : Bag :=
  jsMerge
    ([("role", Json.str "assistant"), ("content", Json.str (specConcatText ps))]
      ++ (if (specToolCalls ps).isEmpty then [] else [("tool_calls", Json.arr (specToolCalls ps))]))
    msgOv

/-- Per-message computation behind the assistant case. -/
theorem assistant_message_eq (ps : List APartSpec) (msgOv : Bag)
    (hpv : ∀ p ∈ ps, ((p.overlay).map Prod.fst).Nodup)
    (hm : (msgOv.map Prod.fst).Nodup) :
    convertHoistedMessage (hoistMessage
      (.assistant (ps.map toAssistantPart) (some [("openaiCompatible", msgOv)]) []))
      = .ok [c4Wire ps msgOv] := by
  have hparts : (ps.map toAssistantPart).map hoistAssistantPart = ps.map specHoisted := by
    rw [List.map_map]
    apply List.map_congr_left
    intro p hp
    have hnd := hpv p hp
    cases p with
    | text t ov =>
      simp only [APartSpec.overlay] at hnd
      simp [toAssistantPart, hoistAssistantPart, hoistMeta_active_only, specHoisted,
        jsMerge_nil _ hnd]
    | call i n a ov =>
      simp only [APartSpec.overlay] at hnd
      simp [toAssistantPart, hoistAssistantPart, hoistMeta_active_only, specHoisted,
        jsMerge_nil _ hnd]
  simp only [hoistMessage, hoistMeta_active_only]
  rw [jsMerge_nil msgOv hm, hparts]
  simp only [convertHoistedMessage]
  rw [assistantToolCalls_specHoisted, assistantText_specHoisted]
  rfl

/-- C4: for every assistant message, the wire message's content is the
in-order concatenation of its text parts' text; `tool_calls` is present iff
the message contains at least one tool-call part; and when present it has
exactly one entry per tool-call part, in input order, of the form
`id/type:'function'/function.name/function.arguments = serialize(args)`
merged with the part's overlay (spec section 4.1). -/
theorem assistant_concat_and_tool_calls (pre post : List Message)
    (ps : List APartSpec) (msgOv : Bag) (as bs : List Bag)
    (h1 : (convertToOpenAICompatibleChatMessages pre).2 = .ok as)
    (h2 : (convertToOpenAICompatibleChatMessages post).2 = .ok bs)
    (hpv : ∀ p ∈ ps, ((p.overlay).map Prod.fst).Nodup)
    (hm : (msgOv.map Prod.fst).Nodup)
    (htc : "tool_calls" ∉ msgOv.map Prod.fst) :
    (convertToOpenAICompatibleChatMessages
      (pre ++ .assistant (ps.map toAssistantPart) (some [("openaiCompatible", msgOv)]) []
        :: post)).2
      = .ok (as ++ c4Wire ps msgOv :: bs)
    ∧ ((bagHasKey (c4Wire ps msgOv) "tool_calls" = true) ↔ ∃ p ∈ ps, p.isToolCall = true) := by
  constructor
  · have hmid := assistant_message_eq ps msgOv hpv hm
    show convertHoistedAll ((pre ++ _ :: post).map hoistMessage) = _
    rw [List.map_append, List.map_cons]
    have h2x : convertHoistedAll (post.map hoistMessage) = .ok bs := h2
    have htail : convertHoistedAll
        (hoistMessage
            (.assistant (ps.map toAssistantPart) (some [("openaiCompatible", msgOv)]) [])
          :: post.map hoistMessage)
        = .ok (c4Wire ps msgOv :: bs) := by
      rw [convertHoistedAll, hmid]
      simp only [Bind.bind, Except.bind]
      rw [h2x]
      rfl
    have := convertHoistedAll_append (pre.map hoistMessage) _ as _ h1 htail
    rw [this]
  · have hbase : bagHasKey
        [("role", Json.str "assistant"), ("content", Json.str (specConcatText ps))]
        "tool_calls" = false := by
      simp [bagHasKey]
    have hov : bagHasKey msgOv "tool_calls" = false :=
      bagHasKey_eq_false_of_not_mem _ _ htc
    unfold c4Wire
    rw [bagHasKey_jsMerge, bagHasKey_append, hbase, hov]
    by_cases hni : specToolCalls ps = []
    · have hempty : (specToolCalls ps).isEmpty = true := by simp [hni]
      simp only [hempty, if_true, bagHasKey]
      simp only [List.any_nil, Bool.or_false, Bool.false_or]
      constructor
      · intro hfalse
        exact absurd hfalse (by simp)
      · intro hex
        exact absurd hni ((specToolCalls_ne_nil_iff ps).mpr hex)
    · have hempty : (specToolCalls ps).isEmpty = false := by
        cases hsc : specToolCalls ps with
        | nil => exact absurd hsc hni
        | cons x xs => simp
      simp only [hempty, Bool.false_eq_true, if_false, bagHasKey, List.any_cons, List.any_nil]
      simp only [beq_self_eq_true, Bool.or_false, Bool.false_or, Bool.or_true]
      constructor
      · intro _
        exact (specToolCalls_ne_nil_iff ps).mp hni
      · intro _
        trivial

/-- Witness for C4: the spec section 8 example — one text part `"A"` and one
tool-call part `f(\x7bx: 1\x7d)` produce content `"A"` and a single serialized
tool-call entry. -/
theorem assistant_concat_witness :
    (convertToOpenAICompatibleChatMessages
      [.assistant
        ([APartSpec.text "A" [],
          APartSpec.call "1" "f" (.obj [("x", Json.num 1)]) []].map toAssistantPart)
        (some [("openaiCompatible", [])]) []]).2
      = .ok [[("role", Json.str "assistant"), ("content", Json.str "A"),
              ("tool_calls", Json.arr
                [.obj
                  [("id", Json.str "1"), ("type", Json.str "function"),
                   ("function", Json.obj
                     [("name", Json.str "f"),
                      ("arguments", Json.str "\x7b\"x\":1\x7d")])]])]]
    ∧ ((bagHasKey
          (c4Wire [APartSpec.text "A" [], APartSpec.call "1" "f" (.obj [("x", Json.num 1)]) []]
            []) "tool_calls" = true)
        ↔ ∃ p ∈ [APartSpec.text "A" [], APartSpec.call "1" "f" (.obj [("x", Json.num 1)]) []],
            p.isToolCall = true) := by
  have h := assistant_concat_and_tool_calls [] []
    [APartSpec.text "A" [], APartSpec.call "1" "f" (.obj [("x", Json.num 1)]) []]
    [] [] [] rfl rfl
    (by intro p hp; simp at hp; rcases hp with rfl | rfl <;> decide)
    (by decide) (by decide)
  refine ⟨?_, h.2⟩
  have hw : c4Wire [APartSpec.text "A" [], APartSpec.call "1" "f" (.obj [("x", Json.num 1)]) []] []
      = [("role", Json.str "assistant"), ("content", Json.str "A"),
         ("tool_calls", Json.arr
           [.obj
             [("id", Json.str "1"), ("type", Json.str "function"),
              ("function", Json.obj
                [("name", Json.str "f"),
                 ("arguments", Json.str "\x7b\"x\":1\x7d")])]])] := rfl
  have h1 := h.1
  rw [hw] at h1
  simpa using h1

/- ### C5 — multi-part user messages -/

/-- Input data for one user content part (text or image; file parts are the
subject of C6). -/
inductive UPartSpec where
  | text (t : String) (ov : Bag)
  | imageUrl (u : String) (ov : Bag)
  | imageBytes (data : List Nat) (mime : Option String) (ov : Bag)

/-- The overlay of a user part datum. -/
def UPartSpec.overlay : UPartSpec → Bag
  | .text _ ov => ov
  | .imageUrl _ ov => ov
  | .imageBytes _ _ ov => ov

/-- The user part a caller supplies for the datum. -/
def toUserPart : UPartSpec → UserPart
  | .text t ov => .text t (some [("openaiCompatible", ov)]) []
  | .imageUrl u ov => .image (.url u) none (some [("openaiCompatible", ov)]) []
  | .imageBytes d m ov => .image (.bytes d) m (some [("openaiCompatible", ov)]) []

/-- The wire content element the part maps to: text parts to
`type/text`, by-reference images to the literal URL, raw-byte images to a
base64 data URI with mime type defaulting to `image/jpeg`. -/
def uPartWire : UPartSpec → Json
  | .text t ov => .obj (jsMerge [("type", Json.str "text"), ("text", Json.str t)] ov)
  | .imageUrl u ov =>
    .obj (jsMerge
      [("type", Json.str "image_url"), ("image_url", Json.obj [("url", Json.str u)])] ov)
  | .imageBytes d m ov =>
    .obj (jsMerge
      [("type", Json.str "image_url"),
       ("image_url", Json.obj
         [("url", Json.str
           ("data:" ++ m.getD "image/jpeg" ++ ";base64," ++ convertUint8ArrayToBase64 d))])]
      ov)

/-- Reduction of the user case on a content list with at least two parts:
the single-text collapse pattern cannot match, so the multi-part path runs. -/
theorem convertHoistedMessage_user_multi (q1 q2 : UserPart) (qs : List UserPart)
    (pm : Option MetaMap) (ex : Bag) :
    convertHoistedMessage (.user (q1 :: q2 :: qs) pm ex)
      = Except.bind ((q1 :: q2 :: qs).mapM convertUserPart)
          (fun parts => .ok [jsMerge
            [("role", Json.str "user"), ("content", Json.arr parts)] (restBag pm ex)]) := by
  cases q1 <;> rfl

/-- Per-part computation behind the multi-part user path. -/
theorem convertUserPart_hoisted (p : UPartSpec)
    (hnd : ((p.overlay).map Prod.fst).Nodup) :
    convertUserPart (hoistUserPart (toUserPart p)) = .ok (uPartWire p) := by
  cases p with
  | text t ov =>
    simp only [UPartSpec.overlay] at hnd
    simp [toUserPart, hoistUserPart, hoistMeta_active_only, convertUserPart, uPartWire,
      jsMerge_nil _ hnd, restBag_none]
  | imageUrl u ov =>
    simp only [UPartSpec.overlay] at hnd
    simp [toUserPart, hoistUserPart, hoistMeta_active_only, convertUserPart, uPartWire,
      imageUrlString, jsMerge_nil _ hnd, restBag_none]
  | imageBytes d m ov =>
    simp only [UPartSpec.overlay] at hnd
    simp [toUserPart, hoistUserPart, hoistMeta_active_only, convertUserPart, uPartWire,
      imageUrlString, jsMerge_nil _ hnd, restBag_none]

/-- Mapping the converter over hoisted text/image parts succeeds with one
wire element per part, in order. -/
theorem mapM_convertUserPart (ps : List UPartSpec)
    (hpv : ∀ p ∈ ps, ((p.overlay).map Prod.fst).Nodup) :
    ((ps.map (fun p => hoistUserPart (toUserPart p))).mapM convertUserPart)
      = .ok (ps.map uPartWire) := by
  induction ps with
  | nil => rfl
  | cons p rest ih =>
    have hp := convertUserPart_hoisted p (hpv p (by simp))
    have hrest := ih (fun q hq => hpv q (by simp [hq]))
    rw [List.map_cons, List.mapM_cons, hp, hrest]
    rfl

/-- C5: for every user message with two or more content parts (text or
image), normalization emits a single wire message whose content array has
exactly one element per input part, in input order, with text parts mapped to
`type/text` and image parts to `type/image_url` (literal URL, or base64 data
URI defaulting to `image/jpeg`). -/
theorem user_multipart_order (pre post : List Message) (p1 p2 : UPartSpec)
    (rest : List UPartSpec) (msgOv : Bag) (as bs : List Bag)
    (h1 : (convertToOpenAICompatibleChatMessages pre).2 = .ok as)
    (h2 : (convertToOpenAICompatibleChatMessages post).2 = .ok bs)
    (hpv : ∀ p ∈ p1 :: p2 :: rest, ((p.overlay).map Prod.fst).Nodup)
    (hm : (msgOv.map Prod.fst).Nodup) :
    (convertToOpenAICompatibleChatMessages
      (pre ++ .user ((p1 :: p2 :: rest).map toUserPart) (some [("openaiCompatible", msgOv)]) []
        :: post)).2
      = .ok (as
          ++ jsMerge
              [("role", Json.str "user"),
               ("content", Json.arr ((p1 :: p2 :: rest).map uPartWire))]
              msgOv
          :: bs) := by
  have hmapM := mapM_convertUserPart (p1 :: p2 :: rest) hpv
  have hmid : convertHoistedMessage (hoistMessage
      (.user ((p1 :: p2 :: rest).map toUserPart) (some [("openaiCompatible", msgOv)]) []))
      = .ok [jsMerge
          [("role", Json.str "user"),
           ("content", Json.arr ((p1 :: p2 :: rest).map uPartWire))]
          msgOv] := by
    have hcons : ((p1 :: p2 :: rest).map toUserPart).map hoistUserPart
        = hoistUserPart (toUserPart p1) :: hoistUserPart (toUserPart p2)
          :: rest.map (fun p => hoistUserPart (toUserPart p)) := by
      simp
    have hmapM2 : (hoistUserPart (toUserPart p1) :: hoistUserPart (toUserPart p2)
          :: rest.map (fun p => hoistUserPart (toUserPart p))).mapM convertUserPart
        = .ok ((p1 :: p2 :: rest).map uPartWire) := by
      rw [show (hoistUserPart (toUserPart p1) :: hoistUserPart (toUserPart p2)
          :: rest.map (fun p => hoistUserPart (toUserPart p)))
        = (p1 :: p2 :: rest).map (fun p => hoistUserPart (toUserPart p)) from by simp]
      exact hmapM
    simp only [hoistMessage, hoistMeta_active_only]
    rw [jsMerge_nil msgOv hm, hcons]
    rw [convertHoistedMessage_user_multi, hmapM2]
    rfl
  show convertHoistedAll ((pre ++ _ :: post).map hoistMessage) = _
  rw [List.map_append, List.map_cons]
  have h2x : convertHoistedAll (post.map hoistMessage) = .ok bs := h2
  have htail : convertHoistedAll
      (hoistMessage
          (.user ((p1 :: p2 :: rest).map toUserPart) (some [("openaiCompatible", msgOv)]) [])
        :: post.map hoistMessage)
      = .ok (jsMerge
          [("role", Json.str "user"),
           ("content", Json.arr ((p1 :: p2 :: rest).map uPartWire))]
          msgOv :: bs) := by
    rw [convertHoistedAll, hmid]
    simp only [Bind.bind, Except.bind]
    rw [h2x]
    rfl
  have := convertHoistedAll_append (pre.map hoistMessage) _ as _ h1 htail
  rw [this]

/-- Witness for C5: a three-part user message (text, URL image, raw-byte
image) maps to a three-element content array in input order; bytes
`[1, 2, 3]` become the data URI `data:image/jpeg;base64,AQID`. -/
theorem user_multipart_witness :
    (convertToOpenAICompatibleChatMessages
      [.user
        ([UPartSpec.text "a" [], UPartSpec.imageUrl "https://x.example/i.png" [],
          UPartSpec.imageBytes [1, 2, 3] none []].map toUserPart)
        (some [("openaiCompatible", [])]) []]).2
      = .ok [[("role", Json.str "user"),
              ("content", Json.arr
                [.obj [("type", Json.str "text"), ("text", Json.str "a")],
                 .obj [("type", Json.str "image_url"),
                       ("image_url", Json.obj [("url", Json.str "https://x.example/i.png")])],
                 .obj [("type", Json.str "image_url"),
                       ("image_url", Json.obj
                         [("url", Json.str "data:image/jpeg;base64,AQID")])]])]] := by
  have h := user_multipart_order [] [] (UPartSpec.text "a" [])
    (UPartSpec.imageUrl "https://x.example/i.png" []) [UPartSpec.imageBytes [1, 2, 3] none []]
    [] [] [] rfl rfl
    (by intro p hp; simp at hp; rcases hp with rfl | rfl | rfl <;> decide)
    (by decide)
  simpa using h

/- ### C6 — file parts fail fatally -/

/-- Whether a user part is a file part. -/
def UserPart.isFilePart : UserPart → Bool
  | .file _ _ _ _ => true
  | _ => false

/-- Modelled from the spec: the section 7 error taxonomy and the retryability
classification of the retry helper (`prepareRetries` and its `isRetryable`
logic are not among the sources).  Only Transient failures are retried;
ContractViolation, UnsupportedContent and Cancelled are fatal. -/
inductive ErrorClass where
  | contractViolation
  | unsupportedContent
  | transient
  | cancelled

/-- Modelled from the spec: retry eligibility per error class (section 7). -/
def errorClassRetryable : ErrorClass → Bool
  | .transient => true
  | _ => false

/-- The taxonomy class of a converter failure: an
`UnsupportedFunctionalityError` is UnsupportedContent. -/
def convErrClass : ConvErr → ErrorClass
  | .unsupportedFunctionality _ => .unsupportedContent

/-- Hoisting does not change whether a part is a file part. -/
theorem isFilePart_hoist (p : UserPart) :
    (hoistUserPart p).isFilePart = p.isFilePart := by
  cases p <;> rfl

/-- Mapping the converter over parts that include a file part fails with the
UnsupportedContent error. -/
theorem mapM_convertUserPart_file (l : List UserPart)
    (hf : ∃ p ∈ l, p.isFilePart = true) :
    l.mapM convertUserPart
      = .error (.unsupportedFunctionality "File content parts in user messages") := by
  induction l with
  | nil => simp at hf
  | cons p rest ih =>
    cases p with
    | text t pm ex =>
      have hrest : ∃ q ∈ rest, q.isFilePart = true := by
        rcases hf with ⟨q, hq, hqf⟩
        rcases List.mem_cons.mp hq with rfl | hq'
        · exact absurd hqf (by simp [UserPart.isFilePart])
        · exact ⟨q, hq', hqf⟩
      rw [List.mapM_cons]
      rw [show convertUserPart (.text t pm ex)
        = .ok (.obj (jsMerge [("type", Json.str "text"), ("text", Json.str t)]
            (restBag pm ex))) from rfl]
      rw [ih hrest]
      rfl
    | image img mt pm ex =>
      have hrest : ∃ q ∈ rest, q.isFilePart = true := by
        rcases hf with ⟨q, hq, hqf⟩
        rcases List.mem_cons.mp hq with rfl | hq'
        · exact absurd hqf (by simp [UserPart.isFilePart])
        · exact ⟨q, hq', hqf⟩
      rw [List.mapM_cons]
      rw [show convertUserPart (.image img mt pm ex)
        = .ok (.obj (jsMerge
            [("type", Json.str "image_url"),
             ("image_url", Json.obj [("url", Json.str (imageUrlString img mt))])]
            (restBag pm ex))) from rfl]
      rw [ih hrest]
      rfl
    | file d mt pm ex =>
      rw [List.mapM_cons]
      rfl

/-- Conversion of a prefix succeeding and a suffix failing fails with the
suffix's error. -/
theorem convertHoistedAll_append_error (xs ys : List Message) (as : List Bag) (e : ConvErr)
    (hx : convertHoistedAll xs = .ok as) (hy : convertHoistedAll ys = .error e) :
    convertHoistedAll (xs ++ ys) = .error e := by
  induction xs generalizing as with
  | nil => simpa using hy
  | cons m ms ih =>
    cases hm : convertHoistedMessage m with
    | error e' =>
      rw [convertHoistedAll, hm] at hx
      exact absurd hx (by simp [Bind.bind, Except.bind])
    | ok a =>
      cases hms : convertHoistedAll ms with
      | error e' =>
        rw [convertHoistedAll, hm] at hx
        simp only [Bind.bind, Except.bind] at hx
        rw [hms] at hx
        exact absurd hx (by simp)
      | ok as' =>
        show convertHoistedAll (m :: (ms ++ ys)) = _
        rw [convertHoistedAll, hm]
        simp only [Bind.bind, Except.bind]
        rw [ih as' hms]

/-- Any user message containing a file part converts to the
UnsupportedContent failure, regardless of the other parts. -/
theorem convertHoistedMessage_user_file (L : List UserPart) (pm : Option MetaMap) (ex : Bag)
    (hfl : ∃ q ∈ L, q.isFilePart = true) :
    convertHoistedMessage (.user L pm ex)
      = .error (.unsupportedFunctionality "File content parts in user messages") := by
  match L with
  | [] => simp at hfl
  | [q] =>
    cases q with
    | text t a b => simp [UserPart.isFilePart] at hfl
    | image i mt a b => simp [UserPart.isFilePart] at hfl
    | file d mt a b => rfl
  | q :: q2 :: qs =>
    rw [convertHoistedMessage_user_multi, mapM_convertUserPart_file _ hfl]
    rfl

/-- C6: a user message containing a file content part makes normalization
fail with the UnsupportedContent (`UnsupportedFunctionalityError`) failure;
the error class is fatal (never retried) and no wire message is produced
(the whole conversion returns the error instead of a message list). -/
theorem user_file_part_fails (pre post : List Message) (parts : List UserPart)
    (pm : Option MetaMap) (ex : Bag) (as : List Bag)
    (h1 : (convertToOpenAICompatibleChatMessages pre).2 = .ok as)
    (hf : ∃ p ∈ parts, p.isFilePart = true) :
    (convertToOpenAICompatibleChatMessages (pre ++ .user parts pm ex :: post)).2
      = .error (.unsupportedFunctionality "File content parts in user messages")
    ∧ errorClassRetryable
        (convErrClass (.unsupportedFunctionality "File content parts in user messages"))
        = false := by
  refine ⟨?_, rfl⟩
  have hf' : ∃ q ∈ parts.map hoistUserPart, q.isFilePart = true := by
    rcases hf with ⟨p, hp, hpf⟩
    exact ⟨hoistUserPart p, List.mem_map_of_mem _ hp, by rw [isFilePart_hoist]; exact hpf⟩
  have hcm : convertHoistedMessage (hoistMessage (.user parts pm ex))
      = .error (.unsupportedFunctionality "File content parts in user messages") := by
    rw [show hoistMessage (.user parts pm ex)
        = .user (parts.map hoistUserPart) (hoistMeta pm ex).1 (hoistMeta pm ex).2 from rfl]
    exact convertHoistedMessage_user_file _ _ _ hf'
  show convertHoistedAll ((pre ++ _ :: post).map hoistMessage) = _
  rw [List.map_append, List.map_cons]
  apply convertHoistedAll_append_error _ _ as _ h1
  rw [convertHoistedAll, hcm]
  rfl

/-- Witness for C6: a concrete user message holding one file part fails with
the UnsupportedContent error, classified non-retryable. -/
theorem user_file_part_fails_witness :
    (convertToOpenAICompatibleChatMessages
      [.user [.file "ZGF0YQ==" "application/pdf" none []] none []]).2
      = .error (.unsupportedFunctionality "File content parts in user messages")
    ∧ errorClassRetryable
        (convErrClass (.unsupportedFunctionality "File content parts in user messages"))
        = false := by
  have h := user_file_part_fails [] [] [.file "ZGF0YQ==" "application/pdf" none []]
    none [] [] rfl ⟨.file "ZGF0YQ==" "application/pdf" none [], by simp, rfl⟩
  simpa using h

/- ### C7 — non-matching metadata namespaces -/

/-- Deleting the active namespace does not change lookups of any other
namespace. -/
theorem find?_filter_ne (m : MetaMap) (ns : String) (hns : ns ≠ "openaiCompatible") :
    (m.filter (fun p => p.1 ≠ "openaiCompatible")).find? (fun p => p.1 == ns)
      = m.find? (fun p => p.1 == ns) := by
  induction m with
  | nil => rfl
  | cons e rest ih =>
    by_cases he : e.1 = "openaiCompatible"
    · have h1 : ¬ ((fun p : String × Bag => decide (p.1 ≠ "openaiCompatible")) e = true) := by
        simp [he]
      have h2 : ¬ ((fun p : String × Bag => p.1 == ns) e = true) := by
        simp only [beq_iff_eq]
        intro h
        exact hns (h ▸ he)
      rw [@List.filter_cons_of_neg _ (fun p => decide (p.1 ≠ "openaiCompatible")) e rest h1,
        @List.find?_cons_of_neg _ (fun p => p.1 == ns) e rest h2]
      exact ih
    · have h1 : ((fun p : String × Bag => decide (p.1 ≠ "openaiCompatible")) e = true) := by
        simp [he]
      by_cases h2 : ((fun p : String × Bag => p.1 == ns) e = true)
      · rw [@List.filter_cons_of_pos _ (fun p => decide (p.1 ≠ "openaiCompatible")) e rest h1,
          @List.find?_cons_of_pos _ (fun p => p.1 == ns) e
            (rest.filter (fun p => decide (p.1 ≠ "openaiCompatible"))) h2,
          @List.find?_cons_of_pos _ (fun p => p.1 == ns) e rest h2]
      · rw [@List.filter_cons_of_pos _ (fun p => decide (p.1 ≠ "openaiCompatible")) e rest h1,
          @List.find?_cons_of_neg _ (fun p => p.1 == ns) e
            (rest.filter (fun p => decide (p.1 ≠ "openaiCompatible"))) h2,
          @List.find?_cons_of_neg _ (fun p => p.1 == ns) e rest h2]
        exact ih

/-- The hoisting step consumes only the `openaiCompatible` namespace: every
other namespace's bag is still found, unchanged, in the residual
`providerMetadata`. -/
theorem hoistMeta_unfold_some (m : MetaMap) (ex : Bag) :
    hoistMeta (some m) ex
      = (match m.find? (fun p => p.1 == "openaiCompatible") with
         | none => (some m, ex)
         | some entry =>
           ((if (m.filter (fun p => p.1 ≠ "openaiCompatible")).isEmpty then none
             else some (m.filter (fun p => p.1 ≠ "openaiCompatible"))),
            jsMerge ex entry.2)) := rfl

theorem hoistMeta_fst_none (m : MetaMap) (ex : Bag)
    (hfind : m.find? (fun p => p.1 == "openaiCompatible") = none) :
    (hoistMeta (some m) ex).1 = some m := by
  rw [hoistMeta_unfold_some, hfind]

theorem hoistMeta_fst_some (m : MetaMap) (ex : Bag) (entry : String × Bag)
    (hfind : m.find? (fun p => p.1 == "openaiCompatible") = some entry) :
    (hoistMeta (some m) ex).1
      = (if (m.filter (fun p => p.1 ≠ "openaiCompatible")).isEmpty then none
         else some (m.filter (fun p => p.1 ≠ "openaiCompatible"))) := by
  rw [hoistMeta_unfold_some, hfind]

theorem hoistMeta_preserves_other (m : MetaMap) (ex : Bag) (ns : String)
    (hns : ns ≠ "openaiCompatible") :
    lookupMeta (hoistMeta (some m) ex).1 ns = lookupMeta (some m) ns := by
  cases hfind : m.find? (fun p => p.1 == "openaiCompatible") with
  | none => rw [hoistMeta_fst_none m ex hfind]
  | some entry =>
    rw [hoistMeta_fst_some m ex entry hfind]
    by_cases hres : (m.filter (fun p => p.1 ≠ "openaiCompatible")).isEmpty
    · rw [if_pos hres]
      have hnil : m.filter (fun p => p.1 ≠ "openaiCompatible") = [] :=
        List.isEmpty_iff.mp hres
      have h0 : m.find? (fun p => p.1 == ns) = none := by
        rw [← find?_filter_ne m ns hns, hnil]
        rfl
      simp [lookupMeta, h0]
    · rw [if_neg hres]
      simp only [lookupMeta]
      rw [find?_filter_ne m ns hns]

/-- A singleton conversation converts to its message's wire messages. -/
theorem convertHoistedAll_singleton (msg : Message) (ws : List Bag)
    (h : convertHoistedMessage msg = .ok ws) : convertHoistedAll [msg] = .ok ws := by
  rw [convertHoistedAll, h]
  simp only [Bind.bind, Except.bind, convertHoistedAll]
  simp

/-- A system message whose metadata has no `openaiCompatible` namespace keeps
its whole `providerMetadata` record, unchanged, in the wire output. -/
theorem system_residual_metadata_in_output (c : String) (m : MetaMap)
    (hno : m.find? (fun p => p.1 == "openaiCompatible") = none) :
    (convertToOpenAICompatibleChatMessages [.system c (some m) []]).2
      = .ok [[("role", Json.str "system"), ("content", Json.str c),
              ("providerMetadata", metaJson m)]] := by
  have hh : hoistMessage (.system c (some m) []) = .system c (some m) [] := by
    simp only [hoistMessage, hoistMeta]
    rw [hno]
  have hcm : convertHoistedMessage (.system c (some m) [])
      = .ok [[("role", Json.str "system"), ("content", Json.str c),
              ("providerMetadata", metaJson m)]] := by
    simp only [convertHoistedMessage]
    rw [show restBag (some m) [] = [("providerMetadata", metaJson m)] from by simp [restBag]]
    have hdisj : ∀ kv ∈ [("providerMetadata", metaJson m)],
        bagHasKey [("role", Json.str "system"), ("content", Json.str c)] kv.1 = false := by
      intro kv hkv
      simp only [List.mem_singleton] at hkv
      subst hkv
      simp [bagHasKey]
    rw [jsMerge_eq_append _ _ (by simp) hdisj]
    rfl
  show convertHoistedAll [hoistMessage (.system c (some m) [])] = _
  rw [hh]
  exact convertHoistedAll_singleton _ _ hcm

/-- C7 counterexample: an assistant message whose single text part carries a
`ProviderMetadata` overlay under the non-matching namespace `someOther`; the
emitted wire message has only the keys `role` and `content` — the overlay has
been dropped, so it does not appear untouched in the output as the claim
requires. -/
theorem assistant_text_overlay_dropped_counterexample :
    outKeys
      (convertToOpenAICompatibleChatMessages
        [.assistant [.text "T" (some [("someOther", [("k", Json.str "v")])]) []] none []]).2
      = [["role", "content"]]
    ∧ "providerMetadata" ∉ ["role", "content"] :=
  ⟨by decide, by decide⟩

/-- C7 (amended): hoisting consumes only the `openaiCompatible` namespace —
for every message or part, an overlay under any other namespace is left
unchanged in the object's residual `providerMetadata` — and the residual is
carried into the wire output through the message-level rest-spread (shown for
system messages, which have no content parts); the exception forced by the
counterexample is that text parts of assistant messages are discarded
wholesale during text concatenation, so overlays carried there do not reach
the output. -/
theorem nonmatching_namespace_never_consumed :
    (∀ (m : MetaMap) (ex : Bag) (ns : String), ns ≠ "openaiCompatible" →
      lookupMeta (hoistMeta (some m) ex).1 ns = lookupMeta (some m) ns)
    ∧ (∀ (c : String) (m : MetaMap),
        m.find? (fun p => p.1 == "openaiCompatible") = none →
        (convertToOpenAICompatibleChatMessages [.system c (some m) []]).2
          = .ok [[("role", Json.str "system"), ("content", Json.str c),
                  ("providerMetadata", metaJson m)]]) :=
  ⟨hoistMeta_preserves_other, system_residual_metadata_in_output⟩

/-- Witness for C7 (amended): a metadata record holding both the active and a
foreign namespace keeps the foreign one through hoisting, and a system
message carrying only foreign metadata shows it verbatim in its wire
message. -/
theorem nonmatching_namespace_witness :
    lookupMeta
      (hoistMeta
        (some [("openaiCompatible", [("a", Json.num 1)]), ("someOther", [("k", Json.str "v")])])
        []).1 "someOther"
      = some [("k", Json.str "v")]
    ∧ (convertToOpenAICompatibleChatMessages
        [.system "s" (some [("someOther", [("k", Json.str "v")])]) []]).2
        = .ok [[("role", Json.str "system"), ("content", Json.str "s"),
                ("providerMetadata",
                  metaJson [("someOther", [("k", Json.str "v")])])]] := by
  constructor
  · have h := nonmatching_namespace_never_consumed.1
      [("openaiCompatible", [("a", Json.num 1)]), ("someOther", [("k", Json.str "v")])]
      [] "someOther" (by decide)
    rw [h]
    rfl
  · exact nonmatching_namespace_never_consumed.2 "s" [("someOther", [("k", Json.str "v")])]
      (by rfl)

/- ### The embedding pipeline (`embed`, from the sources)

`embed` gates on the capability's specification version, then invokes the
capability's `doEmbed` with a singleton batch inside a retrying executor and
nested telemetry spans, defaults an absent usage object to the NaN sentinel,
and assembles the immutable result. -/

/-- A usage token count: an actual count or the `NaN` sentinel the pipeline
substitutes for an absent count (spec section 3: absent counts default to a
not-a-number sentinel rather than zero). -/
inductive TokenCount where
  | nan
  | count (n : Nat)

/-- The usage record of an embedding call. -/
structure EmbedUsage where
  tokens : TokenCount

/-- The request `embed` passes to the capability's `doEmbed`. -/
structure DoEmbedRequest (V : Type) where
  values : List V
  headers : Option (List (String × String))
  providerOptions : Option Bag

/-- The capability's response to `doEmbed`. -/
structure DoEmbedResponse (E : Type) where
  embeddings : List E
  usage : Option EmbedUsage
  providerMetadata : Option MetaMap
  response : Option Bag

/-- The embedding capability: version tag, identifiers, and the `doEmbed`
operation; the first argument indexes the attempt, modelling the
externally-varying outcome of repeated provider round-trips. -/
structure EmbedModelS (V E P : Type) where
  specificationVersion : String
  provider : String
  modelId : String
  doEmbed : Nat → DoEmbedRequest V → Except P (DoEmbedResponse E)

/-- Observable events of one `embed` invocation: span starts/ends and
`doEmbed` calls with their batch. -/
inductive EmbedEvent (V : Type) where
  | spanStart (name : String)
  | doEmbedCall (values : List V)
  | spanEnd (name : String)

/-- Failures of the embedding pipeline: the version-gate error
(`UnsupportedModelVersionError`) or a provider-side failure. -/
inductive EmbedError (P : Type) where
  | unsupportedModelVersion (version : String) (provider : String) (modelId : String)
  | providerError (e : P)

/-- What the inner (per-attempt) function returns. -/
structure InnerEmbed (E : Type) where
  embedding : Option E
  usage : EmbedUsage
  providerMetadata : Option MetaMap
  response : Option Bag

/-- The outward-facing result (`DefaultEmbedResult`). -/
structure EmbedResultS (V E : Type) where
  value : V
  embedding : Option E
  usage : EmbedUsage
  providerMetadata : Option MetaMap
  response : Option Bag

/-- Modelled from the spec: the retry executor (`prepareRetries` and its
retry combinator in `util/prepare-retries`) is not among the sources.  Per
spec sections 4.2 and 7: the body runs once and is re-run on
transient-classified failures up to `remaining` additional times; a
non-transient failure, or exhaustion, propagates the last error unchanged.
Returns the result, the concatenated events of all attempts, and the number
of body invocations. -/
def retryGo {ε α σ : Type} (transient : ε → Bool) (body : Nat → Except ε α × List σ) :
    Nat → Nat → Except ε α × List σ × Nat
  | i, remaining =>
    match body i, remaining with
    | (.ok a, evs), _ => (.ok a, evs, 1)
    | (.error e, evs), 0 => (.error e, evs, 1)
    | (.error e, evs), r + 1 =>
      if transient e then
        let next := retryGo transient body (i + 1) r
        (next.1, evs ++ next.2.1, next.2.2 + 1)
      else (.error e, evs, 1)

/-- Modelled from the spec: run the body with up to `maxRetries` additional
attempts after the first failure. -/
def retryRun {ε α σ : Type} (transient : ε → Bool) (body : Nat → Except ε α × List σ)
    (maxRetries : Nat) : Except ε α × List σ × Nat :=
  retryGo transient body 0 maxRetries

/-- Shallow embedding of `embed`: the `v2` version gate throws before
anything else runs; otherwise the capability's `doEmbed` is invoked with the
singleton batch `[value]` inside the retry executor and the nested
`ai.embed` / `ai.embed.doEmbed` spans; an absent usage object defaults to
`\x7btokens: NaN\x7d`; the result carries the first returned embedding.  The
`transient` parameter classifies provider errors for the (spec-modelled)
retry executor. -/
def embed {V E P : Type} (model : EmbedModelS V E P) (transient : P → Bool) (value : V)
    (maxRetries : Nat) (headers : Option (List (String × String)))
    (providerOptions : Option Bag) :
    Except (EmbedError P) (EmbedResultS V E) × List (EmbedEvent V) :=
  if model.specificationVersion ≠ "v2" then
    (.error (.unsupportedModelVersion model.specificationVersion model.provider model.modelId),
     [])
  else
    let body : Nat → Except (EmbedError P) (InnerEmbed E) × List (EmbedEvent V) :=
      fun attempt =>
        match model.doEmbed attempt
            { values := [value], headers := headers, providerOptions := providerOptions } with
        | .error e =>
          (.error (.providerError e),
           [.spanStart "ai.embed.doEmbed", .doEmbedCall [value], .spanEnd "ai.embed.doEmbed"])
        | .ok resp =>
          (.ok { embedding := resp.embeddings[0]?,
                 usage := resp.usage.getD { tokens := .nan },
                 providerMetadata := resp.providerMetadata,
                 response := resp.response },
           [.spanStart "ai.embed.doEmbed", .doEmbedCall [value], .spanEnd "ai.embed.doEmbed"])
    let transientE : EmbedError P → Bool := fun e =>
      match e with
      | .providerError pe => transient pe
      | .unsupportedModelVersion _ _ _ => false
    let run := retryRun transientE body maxRetries
    match run.1 with
    | .error e => (.error e, .spanStart "ai.embed" :: run.2.1 ++ [.spanEnd "ai.embed"])
    | .ok inner =>
      (.ok { value := value, embedding := inner.embedding, usage := inner.usage,
             providerMetadata := inner.providerMetadata, response := inner.response },
       .spanStart "ai.embed" :: run.2.1 ++ [.spanEnd "ai.embed"])

/- ### C8 — version gate before any work -/

/-- C8: a capability whose specification version differs from `v2` makes
`embed` fail with the `UnsupportedModelVersionError` carrying the version,
provider and model id, with an empty event trace — no span starts, no
`doEmbed` call, and no retry machinery runs. -/
theorem embed_rejects_wrong_version {V E P : Type} (model : EmbedModelS V E P)
    (transient : P → Bool) (value : V) (maxRetries : Nat)
    (headers : Option (List (String × String))) (providerOptions : Option Bag)
    (hv : model.specificationVersion ≠ "v2") :
    embed model transient value maxRetries headers providerOptions
      = (.error (.unsupportedModelVersion model.specificationVersion model.provider
          model.modelId), []) := by
  unfold embed
  rw [if_pos hv]

/-- Witness for C8: a concrete `v1` capability is rejected with no events. -/
theorem embed_rejects_wrong_version_witness :
    embed
      { specificationVersion := "v1", provider := "prov", modelId := "m",
        doEmbed := fun _ _ =>
          (.error () : Except Unit (DoEmbedResponse Nat)) }
      (fun _ => true) (5 : Nat) 2 none none
      = (.error (.unsupportedModelVersion "v1" "prov" "m"), []) :=
  embed_rejects_wrong_version _ _ _ _ _ _ (by decide)

/- ### C9 — retry executor bounds -/

/-- If every attempt from `i` to `i + r - 1` fails transiently and attempt
`i + r` succeeds, the executor started at attempt `i` with `r` retries left
succeeds after exactly `r + 1` invocations. -/
theorem retryGo_succeeds {ε α : Type} (transient : ε → Bool) (body : Nat → Except ε α)
    (e : Nat → ε) (a : α) (r i : Nat)
    (hfail : ∀ j, i ≤ j → j < i + r → body j = .error (e j))
    (htrans : ∀ j, i ≤ j → j < i + r → transient (e j) = true)
    (hsucc : body (i + r) = .ok a) :
    retryGo transient (fun n => (body n, ([] : List Unit))) i r = (.ok a, [], r + 1) := by
  induction r generalizing i with
  | zero =>
    have hb : body i = .ok a := by simpa using hsucc
    rw [retryGo.eq_def]
    simp only []
    rw [hb]
  | succ r ih =>
    have hb : body i = .error (e i) := hfail i le_rfl (by omega)
    have ht : transient (e i) = true := htrans i le_rfl (by omega)
    have hrec := ih (i + 1) (fun j h1 h2 => hfail j (by omega) (by omega))
      (fun j h1 h2 => htrans j (by omega) (by omega))
      (by rw [show i + 1 + r = i + (r + 1) by omega]; exact hsucc)
    rw [retryGo.eq_def]
    simp only []
    rw [hb]
    simp only [ht, if_true, hrec]
    simp

/-- If every attempt from `i` to `i + r` fails, the earlier ones transiently,
the executor started at attempt `i` with `r` retries left propagates the last
attempt's error unchanged after exactly `r + 1` invocations. -/
theorem retryGo_exhausts {ε α : Type} (transient : ε → Bool) (body : Nat → Except ε α)
    (e : Nat → ε) (r i : Nat)
    (hfail : ∀ j, i ≤ j → j ≤ i + r → body j = .error (e j))
    (htrans : ∀ j, i ≤ j → j < i + r → transient (e j) = true) :
    retryGo transient (fun n => (body n, ([] : List Unit))) i r
      = ((.error (e (i + r)) : Except ε α), [], r + 1) := by
  induction r generalizing i with
  | zero =>
    have hb : body i = .error (e i) := hfail i le_rfl (by omega)
    rw [retryGo.eq_def]
    simp only []
    rw [hb]
    simp
  | succ r ih =>
    have hb : body i = .error (e i) := hfail i le_rfl (by omega)
    have ht : transient (e i) = true := htrans i le_rfl (by omega)
    have hrec := ih (i + 1) (fun j h1 h2 => hfail j (by omega) (by omega))
      (fun j h1 h2 => htrans j (by omega) (by omega))
    rw [retryGo.eq_def]
    simp only []
    rw [hb]
    simp only [ht, if_true, hrec]
    rw [show i + 1 + r = i + (r + 1) by omega]
    simp

/-- C9 (spec-modelled retry executor): a body that fails transiently exactly
`K` times and then succeeds, run with `maxRetries = K`, succeeds after
exactly `K + 1` invocations; run with `maxRetries = K - 1` it fails, after
exactly `K` invocations, with the last underlying error propagated unchanged
(no wrapping). -/
theorem retry_transient_K_then_success {ε α : Type} (transient : ε → Bool)
    (body : Nat → Except ε α) (K : Nat) (e : Nat → ε) (a : α)
    (hfail : ∀ i, i < K → body i = .error (e i))
    (htrans : ∀ i, i < K → transient (e i) = true)
    (hsucc : body K = .ok a) :
    retryRun transient (fun n => (body n, ([] : List Unit))) K = (.ok a, [], K + 1)
    ∧ ∀ L, K = L + 1 →
        retryRun transient (fun n => (body n, ([] : List Unit))) L
          = (.error (e L), [], L + 1) := by
  constructor
  · exact retryGo_succeeds transient body e a K 0
      (fun j h1 h2 => hfail j (by omega)) (fun j h1 h2 => htrans j (by omega))
      (by simpa using hsucc)
  · intro L hKL
    have h := retryGo_exhausts transient body e L 0
      (fun j h1 h2 => hfail j (by omega)) (fun j h1 h2 => htrans j (by omega))
    simpa using h

/-- Witness for C9: a body failing twice then returning 7 — with 2 retries it
succeeds after 3 invocations; with 1 retry it fails after 2 invocations with
the last error. -/
theorem retry_transient_witness :
    retryRun (fun _ => true)
      (fun n => ((if n < 2 then .error "boom" else .ok 7 : Except String Nat),
        ([] : List Unit))) 2
      = (.ok 7, [], 3)
    ∧ retryRun (fun _ => true)
        (fun n => ((if n < 2 then .error "boom" else .ok 7 : Except String Nat),
          ([] : List Unit))) 1
        = (.error "boom", [], 2) := by
  have h := retry_transient_K_then_success (fun _ => true)
    (fun n => (if n < 2 then .error "boom" else .ok 7 : Except String Nat))
    2 (fun _ => "boom") 7
    (fun i hi => by simp [hi]) (fun i hi => rfl) (by rfl)
  exact ⟨h.1, h.2 1 rfl⟩

/- ### C10 — singleton batch, first embedding, NaN usage default -/

/-- C10: `embed` invokes `doEmbed` with the singleton batch `[value]`; on a
first-attempt success the result's embedding is the first element of the
response's embeddings array, its usage is the response's usage or the
`\x7btokens: NaN\x7d` default when absent, and the trace shows exactly one
`doEmbed` call, with `[value]`, inside the nested spans. -/
theorem embed_singleton_batch_and_defaults {V E P : Type} (model : EmbedModelS V E P)
    (transient : P → Bool) (value : V) (maxRetries : Nat)
    (headers : Option (List (String × String))) (providerOptions : Option Bag)
    (resp : DoEmbedResponse E)
    (hv : model.specificationVersion = "v2")
    (hok : model.doEmbed 0
      { values := [value], headers := headers, providerOptions := providerOptions }
      = .ok resp) :
    embed model transient value maxRetries headers providerOptions
      = (.ok { value := value, embedding := resp.embeddings[0]?,
               usage := resp.usage.getD { tokens := .nan },
               providerMetadata := resp.providerMetadata, response := resp.response },
         [.spanStart "ai.embed", .spanStart "ai.embed.doEmbed", .doEmbedCall [value],
          .spanEnd "ai.embed.doEmbed", .spanEnd "ai.embed"]) := by
  unfold embed
  rw [if_neg (by simp [hv])]
  simp only [retryRun]
  rw [retryGo.eq_def]
  simp only []
  rw [hok]
  simp

/-- Witness for C10: a concrete `v2` capability returning one embedding and
no usage object yields that embedding, the NaN usage default, and the single
singleton-batch call. -/
theorem embed_singleton_witness :
    embed
      { specificationVersion := "v2", provider := "p", modelId := "m",
        doEmbed := fun _ _ =>
          (.ok { embeddings := [[1, 2]], usage := none, providerMetadata := none,
                 response := none } : Except Unit (DoEmbedResponse (List Int))) }
      (fun _ => true) (5 : Nat) 2 none none
      = (.ok { value := 5, embedding := some [1, 2], usage := { tokens := .nan },
               providerMetadata := none, response := none },
         [.spanStart "ai.embed", .spanStart "ai.embed.doEmbed", .doEmbedCall [5],
          .spanEnd "ai.embed.doEmbed", .spanEnd "ai.embed"]) := by
  have h := embed_singleton_batch_and_defaults
    { specificationVersion := "v2", provider := "p", modelId := "m",
      doEmbed := fun _ _ =>
        (.ok { embeddings := [[1, 2]], usage := none, providerMetadata := none,
               response := none } : Except Unit (DoEmbedResponse (List Int))) }
    (fun _ => true) (5 : Nat) 2 none none
    { embeddings := [[1, 2]], usage := none, providerMetadata := none, response := none }
    rfl rfl
  simpa using h

end AIKit
